import Mathlib

/-!
Shallow embedding of the analytic core of `src/npoint/src/tnpoint_spatialfuncs.c`
(temporal network points: trajectory, length, cumulative length, speed, azimuth,
restriction, nearest-approach operations).

Modelling conventions:
* C `double` values (route fractions, lengths, speeds) are embedded as `ℚ`.
* `TimestampTz` values (microseconds) are embedded as `Int`.
* External collaborators (route catalog, geometry kernel, synchronization engine)
  are passed as explicit function parameters or kernel structures, matching the
  spec's description of them as out-of-scope lookup services.
* Geometry values produced by kernel primitives are represented symbolically by
  the `Geom` inductive, one constructor per primitive actually invoked.
-/

/-- Epsilon used by network-point equality. Modelled from the spec: position
equality on the same route tolerates a fractional difference below a small
epsilon. -/
def EPSILON : ℚ := 1 / 100000

/-- Network position: route identifier and fractional offset (struct `npoint`). -/
structure npoint where
  rid : Int
  pos : ℚ
deriving DecidableEq

/-- Network segment: a contiguous fraction range of one route (struct `nsegment`). -/
structure nsegment where
  rid : Int
  pos1 : ℚ
  pos2 : ℚ
deriving DecidableEq

/-- Temporal instant: a value together with its timestamp (struct `TInstant`). -/
structure TInstant (α : Type) where
  value : α
  t : Int
deriving DecidableEq

instance : Inhabited (TInstant ℚ) := ⟨⟨0, 0⟩⟩

instance : Inhabited (TInstant npoint) := ⟨⟨⟨0, 0⟩, 0⟩⟩

/-- Temporal instant set (struct `TInstantSet`): ordered instants with strictly
increasing timestamps (ordering is a construction invariant, carried as a
hypothesis where a theorem needs it). -/
structure TInstantSet (α : Type) where
  instants : List (TInstant α)
deriving DecidableEq

/-- Temporal sequence (struct `TSequence`): ordered instants, period inclusivity
flags and the interpolation flag (`linear = false` means stepwise). -/
structure TSequence (α : Type) where
  instants : List (TInstant α)
  lower_inc : Bool
  upper_inc : Bool
  linear : Bool
deriving DecidableEq

/-- Temporal sequence set (struct `TSequenceSet`): ordered component sequences
sharing one interpolation mode. -/
structure TSequenceSet (α : Type) where
  seqs : List (TSequence α)
  linear : Bool
deriving DecidableEq

/-- Temporal value: the four duration variants (struct `Temporal` with its
`subtype` tag INSTANT / INSTANTSET / SEQUENCE / SEQUENCESET). -/
inductive Temporal (α : Type) where
  | inst : TInstant α → Temporal α
  | instset : TInstantSet α → Temporal α
  | seq : TSequence α → Temporal α
  | seqset : TSequenceSet α → Temporal α
deriving DecidableEq

/-- Symbolic geometry values: one constructor per external geometry-kernel
primitive used by the embedded functions. -/
inductive Geom where
  | npointGeom : npoint → Geom
  | routeLine : Int → Geom
  | lineSubstring : Geom → ℚ → ℚ → Geom
  | reverseGeom : Geom → Geom
  | multiNpoint : List npoint → Geom
  | nsegGeom : nsegment → Geom
  | multiNseg : List nsegment → Geom
deriving DecidableEq

/-- Serialized geometry argument (struct `GSERIALIZED`), abstracted to the three
facts the embedded functions test: emptiness, SRID and Z-dimension presence. -/
structure GSerialized where
  isEmpty : Bool
  srid : Int
  hasZ : Bool
deriving DecidableEq

/-! ## Network-point equality -/

/-- Modelled from the spec (function `npoint_eq_internal` of `tnpoint_static.c` is
not under `src/`): equality of two positions requires identical route id and an
absolute fractional difference below epsilon.  The cross-route geometric
fallback belongs to `npoint_same_internal`, which is not used by the embedded
dedup loops. -/
def npoint_eq_internal (np1 np2 : npoint) : Bool :=
  np1.rid == np2.rid && |np1.pos - np2.pos| < EPSILON

/-- Membership test used by the duplicate-removal loops of the npoints
functions: the C code scans the accumulated array with `npoint_eq_internal`. -/
def npointarr_mem (l : List npoint) (np : npoint) : Bool :=
  l.any (fun x => npoint_eq_internal np x)

/-! ## Trajectory functions -/

/-- Function `npoint_as_geom_internal`: resolve a network position to its
absolute point geometry (external resolver, represented symbolically). -/
def npoint_as_geom_internal (np : npoint) : Geom :=
  Geom.npointGeom np

/-- Function `npointarr_to_geom_internal`: a multipoint of the given network
positions (external kernel, represented symbolically). -/
def npointarr_to_geom_internal (l : List npoint) : Geom :=
  Geom.multiNpoint l

/-- Function `nsegment_as_geom_internal` (external kernel, symbolic). -/
def nsegment_as_geom_internal (s : nsegment) : Geom :=
  Geom.nsegGeom s

/-- Function `nsegmentarr_to_geom_internal` (external kernel, symbolic). -/
def nsegmentarr_to_geom_internal (l : List nsegment) : Geom :=
  Geom.multiNseg l

/-- Function `tnpointseq_trajectory1`: trajectory of one segment between two
instants on the same route.  Equal positions give the resolved point; fractions
exactly bounding the route give the whole route line; otherwise the route line
is cut between the two fractions, reversed when the direction decreases. -/
def tnpointseq_trajectory1 (inst1 inst2 : TInstant npoint) : Geom :=
  let np1 := inst1.value
  let np2 := inst2.value
  if np1.pos == np2.pos then
    npoint_as_geom_internal np1
  else
    let line := Geom.routeLine np1.rid
    if (np1.pos == 0 && np2.pos == 1) || (np2.pos == 0 && np1.pos == 1) then
      line
    else if np1.pos < np2.pos then
      Geom.lineSubstring line np1.pos np2.pos
    else
      Geom.reverseGeom (Geom.lineSubstring line np2.pos np1.pos)

/-- Function `tnpointi_npoints`: distinct values of an instant set, duplicates
removed by pairwise `npoint_eq_internal` scans in order. -/
def tnpointi_npoints (ti : TInstantSet npoint) : List npoint :=
  match ti.instants with
  | [] => []
  | i0 :: rest =>
    rest.foldl
      (fun acc i => if npointarr_mem acc i.value then acc else acc ++ [i.value])
      [i0.value]

/-- Function `tnpointseq_step_npoints`: distinct values of a stepwise sequence,
same duplicate-removal scan over all instants of the sequence. -/
def tnpointseq_step_npoints (seq : TSequence npoint) : List npoint :=
  match seq.instants with
  | [] => []
  | i0 :: rest =>
    rest.foldl
      (fun acc i => if npointarr_mem acc i.value then acc else acc ++ [i.value])
      [i0.value]

/-- Function `tnpoints_step_npoints`: collection loop over a sequence set.  The
source seeds the result with the first instant of the first sequence, then
iterates the outer loop from sequence index 1 and the inner loop from instant
index 1, exactly as the C code does. -/
def tnpoints_step_npoints (ts : TSequenceSet npoint) : List npoint :=
  match ts.seqs with
  | [] => []
  | seq0 :: rest =>
    match seq0.instants with
    | [] => []
    | i0 :: _ =>
      rest.foldl
        (fun acc seq =>
          (seq.instants.drop 1).foldl
            (fun acc2 i =>
              if npointarr_mem acc2 i.value then acc2 else acc2 ++ [i.value])
            acc)
        [i0.value]

/-- Modelled from the spec (function `tnpointseq_linear_positions` is not under
`src/`): the minimal network segment spanning all fractions of a linear
sequence, on the shared route of its instants. -/
def tnpointseq_linear_positions (seq : TSequence npoint) : nsegment :=
  match seq.instants with
  | [] => ⟨0, 0, 0⟩
  | i0 :: rest =>
    { rid := i0.value.rid
      pos1 := rest.foldl (fun a i => min a i.value.pos) i0.value.pos
      pos2 := rest.foldl (fun a i => max a i.value.pos) i0.value.pos }

/-- Modelled from the spec (function `tnpoints_positions` is not under `src/`):
per-sequence minimal segments of a linear sequence set. -/
def tnpoints_positions (ts : TSequenceSet npoint) : List nsegment :=
  ts.seqs.map tnpointseq_linear_positions

/-- Function `tnpointinst_geom`: resolved point of a single instant. -/
def tnpointinst_geom (inst : TInstant npoint) : Geom :=
  npoint_as_geom_internal inst.value

/-- Function `tnpointi_geom`: multipoint of the distinct values of an instant
set; a singleton instant set degrades to the instant case. -/
def tnpointi_geom (ti : TInstantSet npoint) : Geom :=
  match ti.instants with
  | [i0] => tnpointinst_geom i0
  | _ => npointarr_to_geom_internal (tnpointi_npoints ti)

/-- Function `tnpointseq_geom`: instantaneous sequences degrade to the instant
case; linear sequences resolve their minimal segment; stepwise sequences build
the distinct-point multipoint. -/
def tnpointseq_geom (seq : TSequence npoint) : Geom :=
  match seq.instants with
  | [i0] => tnpointinst_geom i0
  | _ =>
    if seq.linear then
      nsegment_as_geom_internal (tnpointseq_linear_positions seq)
    else
      npointarr_to_geom_internal (tnpointseq_step_npoints seq)

/-- Function `tnpoints_geom`: a singleton sequence set delegates to the
sequence case; linear sets resolve per-sequence segments; stepwise sets build
the multipoint collected by `tnpoints_step_npoints`. -/
def tnpoints_geom (ts : TSequenceSet npoint) : Geom :=
  match ts.seqs with
  | [seq0] => tnpointseq_geom seq0
  | _ =>
    if ts.linear then
      nsegmentarr_to_geom_internal (tnpoints_positions ts)
    else
      npointarr_to_geom_internal (tnpoints_step_npoints ts)

/-- Function `tnpoint_geom`: variant dispatch of the trajectory builder. -/
def tnpoint_geom : Temporal npoint → Geom
  | .inst i => tnpointinst_geom i
  | .instset ti => tnpointi_geom ti
  | .seq s => tnpointseq_geom s
  | .seqset ts => tnpoints_geom ts

/-! ## Length functions -/

/-- Accumulation loop of `tnpointseq_length`: running sum of absolute fraction
deltas between consecutive instants. -/
def posAbsDeltaSum : npoint → List (TInstant npoint) → ℚ
  | _, [] => 0
  | np1, i :: rest => |i.value.pos - np1.pos| + posAbsDeltaSum i.value rest

/-- Function `tnpointseq_length`: route length times the summed absolute
fraction deltas of a sequence; zero for an instantaneous sequence.  The route
catalog lookup `route_length` is the external resolver parameter `rlen`. -/
def tnpointseq_length (rlen : Int → ℚ) (seq : TSequence npoint) : ℚ :=
  match seq.instants with
  | [_] => 0
  | [] => 0
  | i0 :: rest => rlen i0.value.rid * posAbsDeltaSum i0.value rest

/-- Function `tnpoints_length`: sum of the per-sequence lengths. -/
def tnpoints_length (rlen : Int → ℚ) (ts : TSequenceSet npoint) : ℚ :=
  ts.seqs.foldl (fun acc seq => acc + tnpointseq_length rlen seq) 0

/-- Function `tnpoint_length`: zero for instants, instant sets and stepwise
variants; the traversed length for linear sequences and sequence sets. -/
def tnpoint_length (rlen : Int → ℚ) : Temporal npoint → ℚ
  | .inst _ => 0
  | .instset _ => 0
  | .seq s => if s.linear then tnpointseq_length rlen s else 0
  | .seqset ts => if ts.linear then tnpoints_length rlen ts else 0

/-! ## Cumulative length functions -/

/-- Function `tnpointinst_set_zero`: a zero-valued float instant at the input
instant's timestamp. -/
def tnpointinst_set_zero (inst : TInstant npoint) : TInstant ℚ :=
  ⟨0, inst.t⟩

/-- Function `tnpointi_set_zero`: zero-valued float instants at the input
instant set's timestamps. -/
def tnpointi_set_zero (ti : TInstantSet npoint) : TInstantSet ℚ :=
  ⟨ti.instants.map (fun i => (⟨0, i.t⟩ : TInstant ℚ))⟩

/-- Accumulation loop of the linear branch of `tnpointseq_cumulative_length`:
running length seeded by the accumulated value so far, adding the absolute
fraction delta of each consecutive pair times the route length. -/
def cumLengthInstants (rlength : ℚ) : ℚ → npoint → List (TInstant npoint) → List (TInstant ℚ)
  | _, _, [] => []
  | len, np1, i :: rest =>
    let len2 := len + |i.value.pos - np1.pos| * rlength
    ⟨len2, i.t⟩ :: cumLengthInstants rlength len2 i.value rest

/-- Function `tnpointseq_cumulative_length`: an instantaneous sequence yields a
single instant holding the seed `prevlength` (with both inclusivity flags true
and linear interpolation, as built by the source); a stepwise sequence yields
zero at every timestamp; a linear sequence yields the running sum seeded by
`prevlength`.  The resulting sequence keeps the input's inclusivity flags and
interpolation. -/
def tnpointseq_cumulative_length (rlen : Int → ℚ) (seq : TSequence npoint)
    (prevlength : ℚ) : TSequence ℚ :=
  match seq.instants with
  | [i0] => ⟨[⟨prevlength, i0.t⟩], true, true, true⟩
  | [] => ⟨[], seq.lower_inc, seq.upper_inc, seq.linear⟩
  | i0 :: rest =>
    if seq.linear = false then
      ⟨seq.instants.map (fun i => (⟨0, i.t⟩ : TInstant ℚ)),
        seq.lower_inc, seq.upper_inc, seq.linear⟩
    else
      ⟨⟨prevlength, i0.t⟩ ::
          cumLengthInstants (rlen i0.value.rid) prevlength i0.value rest,
        seq.lower_inc, seq.upper_inc, seq.linear⟩

/-- Function `tnpoints_cumulative_length`: per-component cumulative lengths.
The source seeds component `i` with the running variable `length` and then
executes `length += value-of-last-instant-of-output-i`, exactly as embedded
here (the output's last value already contains the seed). -/
def tnpoints_cumulative_length (rlen : Int → ℚ) (ts : TSequenceSet npoint) :
    TSequenceSet ℚ :=
  let r := ts.seqs.foldl
    (fun (acc : List (TSequence ℚ) × ℚ) seq =>
      let s := tnpointseq_cumulative_length rlen seq acc.2
      let e := (s.instants.getD (seq.instants.length - 1) default).value
      (acc.1 ++ [s], acc.2 + e))
    ([], 0)
  ⟨r.1, ts.linear⟩

/-- Function `tnpoint_cumulative_length`: variant dispatch; instants and
instant sets are zeroed, sequences are seeded with 0. -/
def tnpoint_cumulative_length (rlen : Int → ℚ) : Temporal npoint → Temporal ℚ
  | .inst i => .inst (tnpointinst_set_zero i)
  | .instset ti => .instset (tnpointi_set_zero ti)
  | .seq s => .seq (tnpointseq_cumulative_length rlen s 0)
  | .seqset ts => .seqset (tnpoints_cumulative_length rlen ts)

/-! ## Speed functions -/

/-- Loop of the linear branch of `tnpointseq_speed`: one instant per
consecutive pair carrying the pair's rate at the pair's start timestamp, and a
final instant repeating the last computed rate at the last timestamp.
Timestamps are microseconds, so the elapsed time is divided by 1000000. -/
def speedInstants (rlength : ℚ) : ℚ → TInstant npoint → List (TInstant npoint) →
    List (TInstant ℚ)
  | speed, inst1, [] => [⟨speed, inst1.t⟩]
  | _, inst1, inst2 :: rest =>
    let len := |inst2.value.pos - inst1.value.pos| * rlength
    let sp := len / (((inst2.t - inst1.t : Int) : ℚ) / 1000000)
    ⟨sp, inst1.t⟩ :: speedInstants rlength sp inst2 rest

/-- Function `tnpointseq_speed`: `none` for an instantaneous sequence; an
all-zero sequence for stepwise interpolation; the per-pair rates for linear
interpolation.  The result always carries stepwise interpolation. -/
def tnpointseq_speed (rlen : Int → ℚ) (seq : TSequence npoint) :
    Option (TSequence ℚ) :=
  match seq.instants with
  | [_] => none
  | [] => some ⟨[], seq.lower_inc, seq.upper_inc, false⟩
  | i0 :: rest =>
    if seq.linear = false then
      some ⟨seq.instants.map (fun i => (⟨0, i.t⟩ : TInstant ℚ)),
        seq.lower_inc, seq.upper_inc, false⟩
    else
      some ⟨speedInstants (rlen i0.value.rid) 0 i0 rest,
        seq.lower_inc, seq.upper_inc, false⟩

/-- Function `tnpoints_speed`: per-component speeds keeping the non-`none`
results; `none` when every component was skipped. -/
def tnpoints_speed (rlen : Int → ℚ) (ts : TSequenceSet npoint) :
    Option (TSequenceSet ℚ) :=
  let ks := ts.seqs.filterMap (tnpointseq_speed rlen)
  if ks.length == 0 then none else some ⟨ks, false⟩

/-- Function `tnpoint_speed`: variant dispatch; instants and instant sets are
zeroed (a present result), sequences and sequence sets may yield `none`. -/
def tnpoint_speed (rlen : Int → ℚ) : Temporal npoint → Option (Temporal ℚ)
  | .inst i => some (.inst (tnpointinst_set_zero i))
  | .instset ti => some (.instset (tnpointi_set_zero ti))
  | .seq s => (tnpointseq_speed rlen s).map .seq
  | .seqset ts => (tnpoints_speed rlen ts).map .seqset

/-! ## Azimuth functions -/

/-- External geometry-kernel data consumed by `tnpointseq_azimuth1` for one
non-constant segment: for each vertex-to-vertex edge of the pairwise
trajectory, the azimuth of the edge and the line-locate fraction of the edge's
end vertex. -/
structure GeomKernel where
  segEdges : npoint → npoint → List (ℚ × ℚ)

/-- Vertex walk of `tnpointseq_azimuth1`: one instant per edge; the first
instant sits at the segment's start time, each later instant at the time
interpolated from the previous edge's end-vertex fraction (the C cast to
`long` truncates, embedded as the floor of the nonnegative product). -/
def azWalk (t1 t2 : Int) : Int → List (ℚ × ℚ) → List (TInstant ℚ)
  | _, [] => []
  | time, e :: rest =>
    ⟨e.1, time⟩ :: azWalk t1 t2 (t1 + Rat.floor (((t2 - t1 : Int) : ℚ) * e.2)) rest

/-- Function `tnpointseq_azimuth1`: a constant segment (identical start and end
position) contributes no instants; otherwise one instant per trajectory edge
via the vertex walk. -/
def tnpointseq_azimuth1 (K : GeomKernel) (inst1 inst2 : TInstant npoint) :
    List (TInstant ℚ) :=
  let np1 := inst1.value
  let np2 := inst2.value
  if np1.pos == np2.pos then []
  else azWalk inst1.t inst2.t inst1.t (K.segEdges np1 np2)

/-- Closing step of the assembly in `tnpointseq_azimuth2`: append one closing
instant repeating the value of the last accumulated instant at time `closeT`. -/
def azClose (pend : List (TInstant ℚ)) (closeT : Int) : List (TInstant ℚ) :=
  pend ++ [⟨(pend.getLastD default).value, closeT⟩]

/-- Main loop of `tnpointseq_azimuth2` over the remaining instants.  State:
`inst1` is the current segment start, `lower` the pending lower-inclusivity
flag (the sequence's own flag before the first iteration, `true` afterwards),
`pend` the instants accumulated since the last split (the source keeps them as
per-segment arrays indexed from `m` and flattens at assembly; the flattened
list is accumulated here directly), `out` the emitted sequences.  A segment
with no instants whose accumulation is non-empty closes the accumulation at
the segment's start time; after the loop a non-empty accumulation closes at
the final instant's time. -/
def azLoop (K : GeomKernel) : TInstant npoint → List (TInstant npoint) → Bool →
    List (TInstant ℚ) → List (TSequence ℚ) → List (TSequence ℚ)
  | inst1, [], lower, pend, out =>
    if pend.isEmpty then out
    else out ++ [⟨azClose pend inst1.t, lower, true, false⟩]
  | inst1, inst2 :: rest, lower, pend, out =>
    let insts := tnpointseq_azimuth1 K inst1 inst2
    if insts.isEmpty then
      if pend.isEmpty then azLoop K inst2 rest true pend out
      else azLoop K inst2 rest true []
        (out ++ [⟨azClose pend inst1.t, lower, true, false⟩])
    else azLoop K inst2 rest true (pend ++ insts) out

/-- Function `tnpointseq_azimuth2`: no output sequences for an instantaneous
sequence; otherwise the split-and-assemble loop over all segments. -/
def tnpointseq_azimuth2 (K : GeomKernel) (seq : TSequence npoint) :
    List (TSequence ℚ) :=
  match seq.instants with
  | [] => []
  | [_] => []
  | i0 :: rest => azLoop K i0 rest seq.lower_inc [] []

/-- Function `tnpointseq_azimuth`: `none` when the loop emitted no sequences,
otherwise the emitted sequences bundled as a stepwise sequence set. -/
def tnpointseq_azimuth (K : GeomKernel) (seq : TSequence npoint) :
    Option (TSequenceSet ℚ) :=
  let sequences := tnpointseq_azimuth2 K seq
  if sequences.length == 0 then none else some ⟨sequences, false⟩

/-- Function `tnpoints_azimuth`: a singleton sequence set delegates to the
sequence case; otherwise the per-component emitted sequences are concatenated,
`none` when all components emitted nothing. -/
def tnpoints_azimuth (K : GeomKernel) (ts : TSequenceSet npoint) :
    Option (TSequenceSet ℚ) :=
  match ts.seqs with
  | [seq0] => tnpointseq_azimuth K seq0
  | _ =>
    let seqs := ts.seqs.foldl (fun acc seq => acc ++ tnpointseq_azimuth2 K seq) []
    if seqs.length == 0 then none else some ⟨seqs, false⟩

/-- Function `tnpoint_azimuth`: absent for instants, instant sets and stepwise
variants; dispatch for linear sequences and sequence sets. -/
def tnpoint_azimuth (K : GeomKernel) : Temporal npoint → Option (Temporal ℚ)
  | .inst _ => none
  | .instset _ => none
  | .seq s => if s.linear then (tnpointseq_azimuth K s).map .seqset else none
  | .seqset ts => if ts.linear then (tnpoints_azimuth K ts).map .seqset else none

/-! ## Restriction functions -/

/-- Errors raised by the restriction entry points before any computation. -/
inductive RestrictErr where
  | sridMismatch
  | zGeometry
deriving DecidableEq

/-- External services consumed by the restriction entry points: the SRID of a
temporal network point (resolved through the route catalog) and the composite
projection-restriction-reprojection pipeline (`tnpoint_as_tgeompoint_internal`,
`tpoint_restrict_geometry_internal`, `tgeompoint_as_tnpoint_internal`), which
may yield `none` when the value is fully filtered out. -/
structure RestrictKernel where
  tsrid : Temporal npoint → Int
  restrictGeom : Temporal npoint → GSerialized → Bool → Option (Temporal npoint)

/-- Modelled from the spec (function `temporal_copy` is not under `src/`): the
returned copy equals the input value. -/
def temporal_copy (temp : Temporal npoint) : Temporal npoint :=
  temp

/-- Function `tnpoint_at_geometry`: SRID mismatch is an error; an empty
geometry yields an absent result before the Z check and before any kernel
call; a Z-bearing geometry is an error; otherwise the restriction pipeline
runs with the AT mode. -/
def tnpoint_at_geometry (K : RestrictKernel) (temp : Temporal npoint)
    (gs : GSerialized) : Except RestrictErr (Option (Temporal npoint)) :=
  if K.tsrid temp != gs.srid then .error .sridMismatch
  else if gs.isEmpty then .ok none
  else if gs.hasZ then .error .zGeometry
  else .ok (K.restrictGeom temp gs true)

/-- Function `tnpoint_minus_geometry`: SRID mismatch is an error; an empty
geometry yields a copy of the unchanged input; a Z-bearing geometry is an
error; otherwise the restriction pipeline runs with the MINUS mode. -/
def tnpoint_minus_geometry (K : RestrictKernel) (temp : Temporal npoint)
    (gs : GSerialized) : Except RestrictErr (Option (Temporal npoint)) :=
  if K.tsrid temp != gs.srid then .error .sridMismatch
  else if gs.isEmpty then .ok (some (temporal_copy temp))
  else if gs.hasZ then .error .zGeometry
  else .ok (K.restrictGeom temp gs false)

/-! ## Nearest approach and shortest line -/

/-- External proximity primitives consumed by the geometry-argument entry
points: plain geometric distance, the nearest-approach-instant computation on
the projected representation, and the shortest-line primitive. -/
structure ProxKernel where
  geoDistance : Geom → GSerialized → ℚ
  naiTpointGeo : Temporal npoint → GSerialized → TInstant npoint
  shortLine2d : Geom → GSerialized → Geom

/-- Function `NAD_geometry_tnpoint`: an empty geometry yields an absent result
before any kernel call; otherwise the distance between the trajectory and the
geometry. -/
def NAD_geometry_tnpoint (K : ProxKernel) (gs : GSerialized)
    (temp : Temporal npoint) : Option ℚ :=
  if gs.isEmpty then none
  else some (K.geoDistance (tnpoint_geom temp) gs)

/-- Function `NAD_tnpoint_geometry`: argument-flipped variant of
`NAD_geometry_tnpoint` with the same empty-geometry policy. -/
def NAD_tnpoint_geometry (K : ProxKernel) (temp : Temporal npoint)
    (gs : GSerialized) : Option ℚ :=
  if gs.isEmpty then none
  else some (K.geoDistance (tnpoint_geom temp) gs)

/-- Function `NAI_geometry_tnpoint`: an empty geometry yields an absent result
before any kernel call; otherwise the nearest-approach instant computed on the
projected representation. -/
def NAI_geometry_tnpoint (K : ProxKernel) (gs : GSerialized)
    (temp : Temporal npoint) : Option (TInstant npoint) :=
  if gs.isEmpty then none
  else some (K.naiTpointGeo temp gs)

/-- Function `NAI_tnpoint_geometry`: argument-flipped variant of
`NAI_geometry_tnpoint` with the same empty-geometry policy. -/
def NAI_tnpoint_geometry (K : ProxKernel) (temp : Temporal npoint)
    (gs : GSerialized) : Option (TInstant npoint) :=
  if gs.isEmpty then none
  else some (K.naiTpointGeo temp gs)

/-- Function `shortestline_geometry_tnpoint`: an empty geometry yields an
absent result before any kernel call; otherwise the shortest line between the
trajectory and the geometry. -/
def shortestline_geometry_tnpoint (K : ProxKernel) (gs : GSerialized)
    (temp : Temporal npoint) : Option Geom :=
  if gs.isEmpty then none
  else some (K.shortLine2d (tnpoint_geom temp) gs)

/-- Function `shortestline_tnpoint_geometry`: argument-flipped variant of
`shortestline_geometry_tnpoint` with the same empty-geometry policy. -/
def shortestline_tnpoint_geometry (K : ProxKernel) (temp : Temporal npoint)
    (gs : GSerialized) : Option Geom :=
  if gs.isEmpty then none
  else some (K.shortLine2d (tnpoint_geom temp) gs)

/-! ## Temporal distance and nearest approach between two temporal points -/

/-- Timestamps of all instants of a temporal value, in stored order. -/
def Temporal.allTimes : Temporal α → List Int
  | .inst i => [i.t]
  | .instset ti => ti.instants.map (·.t)
  | .seq s => s.instants.map (·.t)
  | .seqset ts => (ts.seqs.map (fun s => s.instants.map (·.t))).flatten

/-- Start of the time span of a temporal value (first stored timestamp). -/
def Temporal.startT (temp : Temporal α) : Int :=
  temp.allTimes.headD 0

/-- End of the time span of a temporal value (last stored timestamp). -/
def Temporal.endT (temp : Temporal α) : Int :=
  temp.allTimes.getLastD 0

/-- Modelled from the spec: two temporal values overlap in time when their
periods intersect (period inclusivity flags are below the granularity any
claim needs). -/
def timeOverlap (a b : Temporal npoint) : Bool :=
  a.startT ≤ b.endT && b.startT ≤ a.endT

/-- External synchronization engine: the synchronized pointwise-distance
temporal value of two temporal network points with overlapping time domains. -/
structure DistKernel where
  syncDist : Temporal npoint → Temporal npoint → Temporal ℚ

/-- Modelled from the spec (function `distance_tnpoint_tnpoint_internal` of
`tnpoint_distance.c` is not under `src/`): synchronization fails with an
absent result when the time domains are disjoint; otherwise the result is the
synchronized pointwise-distance temporal value. -/
def distance_tnpoint_tnpoint_internal (K : DistKernel)
    (temp1 temp2 : Temporal npoint) : Option (Temporal ℚ) :=
  if timeOverlap temp1 temp2 then some (K.syncDist temp1 temp2) else none

/-- Values of all instants of a temporal value, in stored order. -/
def Temporal.allValues : Temporal α → List α
  | .inst i => [i.value]
  | .instset ti => ti.instants.map (·.value)
  | .seq s => s.instants.map (·.value)
  | .seqset ts => (ts.seqs.map (fun s => s.instants.map (·.value))).flatten

/-- Modelled from the spec (function `temporal_min_value_internal` is not under
`src/`): the minimum instant value of a temporal float. -/
def temporal_min_value_internal (temp : Temporal ℚ) : ℚ :=
  match temp.allValues with
  | [] => 0
  | v :: vs => vs.foldl min v

/-- Function `NAD_tnpoint_tnpoint`: an absent distance (disjoint time domains)
propagates as an absent result; otherwise the minimum value of the pointwise
distance. -/
def NAD_tnpoint_tnpoint (K : DistKernel) (temp1 temp2 : Temporal npoint) :
    Option ℚ :=
  match distance_tnpoint_tnpoint_internal K temp1 temp2 with
  | none => none
  | some dist => some (temporal_min_value_internal dist)

/-! ## Specification-side formulations -/

/-- Sum of the absolute differences of consecutive entries of a list, written
as the claims state it: a sum over the pairs of consecutive entries. -/
def pairsAbsSum (l : List ℚ) : ℚ :=
  ((l.zip l.tail).map (fun p => |p.2 - p.1|)).sum

/-- Length of one sequence as the claim states it: route length of the shared
route times the summed absolute fraction deltas between consecutive instants. -/
def specSeqLength (rlen : Int → ℚ) (s : TSequence npoint) : ℚ :=
  match s.instants with
  | [] => 0
  | i0 :: _ => rlen i0.value.rid * pairsAbsSum (s.instants.map (·.value.pos))

/-- Length as the claim states it per variant: zero for instants, instant sets
and stepwise variants; the per-sequence formula for a linear sequence; the sum
of per-sequence lengths for a linear sequence set. -/
def specLength (rlen : Int → ℚ) : Temporal npoint → ℚ
  | .inst _ => 0
  | .instset _ => 0
  | .seq s => if s.linear then specSeqLength rlen s else 0
  | .seqset ts => if ts.linear then (ts.seqs.map (specSeqLength rlen)).sum else 0

/-! ## Helper lemmas -/

theorem pairsAbsSum_cons_cons (a b : ℚ) (l : List ℚ) :
    pairsAbsSum (a :: b :: l) = |b - a| + pairsAbsSum (b :: l) := by
  simp [pairsAbsSum]

theorem posAbsDeltaSum_eq_pairsAbsSum (np1 : npoint) (rest : List (TInstant npoint)) :
    posAbsDeltaSum np1 rest = pairsAbsSum (np1.pos :: rest.map (·.value.pos)) := by
  induction rest generalizing np1 with
  | nil => simp [posAbsDeltaSum, pairsAbsSum]
  | cons i rest ih =>
    rw [posAbsDeltaSum, List.map_cons, pairsAbsSum_cons_cons, ih i.value]

theorem tnpointseq_length_eq_spec (rlen : Int → ℚ) (s : TSequence npoint) :
    tnpointseq_length rlen s = specSeqLength rlen s := by
  match h : s.instants with
  | [] => simp [tnpointseq_length, specSeqLength, h]
  | [i0] => simp [tnpointseq_length, specSeqLength, h, pairsAbsSum]
  | i0 :: i1 :: rest =>
    simp only [tnpointseq_length, specSeqLength, h,
      posAbsDeltaSum_eq_pairsAbsSum, List.map_cons]

theorem foldl_add_eq_sum (f : TSequence npoint → ℚ) (l : List (TSequence npoint)) :
    ∀ a : ℚ, l.foldl (fun acc s => acc + f s) a = a + (l.map f).sum := by
  induction l with
  | nil => simp
  | cons s l ih => intro a; rw [List.foldl_cons, ih]; simp [add_assoc]

/-! ## Claim C8 -/

/-- C8: for every temporal network point, `tnpoint_length` returns route_length
times the summed absolute fraction deltas over consecutive instants for a
linear Sequence, zero for Instant, InstantSet and stepwise Sequence or
SequenceSet variants, and the sum of the per-sequence lengths for a linear
SequenceSet. -/
theorem C8_length_eq_spec (rlen : Int → ℚ) (temp : Temporal npoint) :
    tnpoint_length rlen temp = specLength rlen temp := by
  cases temp with
  | inst i => rfl
  | instset ti => rfl
  | seq s =>
    simp only [tnpoint_length, specLength, tnpointseq_length_eq_spec]
  | seqset ts =>
    simp only [tnpoint_length, specLength]
    rw [tnpoints_length, foldl_add_eq_sum (tnpointseq_length rlen), zero_add]
    simp only [List.map_congr_left (fun s _ => tnpointseq_length_eq_spec rlen s)]

/-! ## Claim C9 -/

/-- C9: for every pair of same-route instants with distinct fractions, the
pairwise trajectory builder returns the whole route line exactly when the two
fractions are 0 and 1, and otherwise the sub-line of the route cut between the
lower and the higher fraction, reversed when the first fraction is greater
than the second. -/
theorem C9_trajectory1_cases (inst1 inst2 : TInstant npoint)
    (h : inst1.value.pos ≠ inst2.value.pos) :
    ((inst1.value.pos = 0 ∧ inst2.value.pos = 1) ∨
        (inst2.value.pos = 0 ∧ inst1.value.pos = 1) →
      tnpointseq_trajectory1 inst1 inst2 = Geom.routeLine inst1.value.rid) ∧
    (¬ ((inst1.value.pos = 0 ∧ inst2.value.pos = 1) ∨
        (inst2.value.pos = 0 ∧ inst1.value.pos = 1)) →
      tnpointseq_trajectory1 inst1 inst2 =
        if inst1.value.pos < inst2.value.pos then
          Geom.lineSubstring (Geom.routeLine inst1.value.rid)
            inst1.value.pos inst2.value.pos
        else
          Geom.reverseGeom (Geom.lineSubstring (Geom.routeLine inst1.value.rid)
            inst2.value.pos inst1.value.pos)) := by
  have hne : (inst1.value.pos == inst2.value.pos) = false := by
    simp [beq_iff_eq, h]
  constructor
  · rintro (⟨h1, h2⟩ | ⟨h1, h2⟩) <;>
      simp [tnpointseq_trajectory1, hne, h1, h2]
  · intro hb
    have hcond : ((inst1.value.pos == 0 && inst2.value.pos == 1) ||
        (inst2.value.pos == 0 && inst1.value.pos == 1)) = false := by
      refine Bool.eq_false_iff.mpr fun hc => hb ?_
      rcases Bool.or_eq_true_iff.mp hc with hc | hc
      · exact Or.inl ⟨beq_iff_eq.mp (Bool.and_eq_true_iff.mp hc).1,
          beq_iff_eq.mp (Bool.and_eq_true_iff.mp hc).2⟩
      · exact Or.inr ⟨beq_iff_eq.mp (Bool.and_eq_true_iff.mp hc).1,
          beq_iff_eq.mp (Bool.and_eq_true_iff.mp hc).2⟩
    simp only [tnpointseq_trajectory1, hne, hcond, Bool.false_eq_true,
      if_false]

/-- C9 witness: on route 1 the instants at fractions 0 and 1 yield the whole
route line. -/
theorem C9_witness :
    tnpointseq_trajectory1 ⟨⟨1, 0⟩, 0⟩ ⟨⟨1, 1⟩, 10⟩ = Geom.routeLine 1 :=
  (C9_trajectory1_cases ⟨⟨1, 0⟩, 0⟩ ⟨⟨1, 1⟩, 10⟩ (by norm_num)).1
    (Or.inl ⟨rfl, rfl⟩)

/-! ## Claim C10 -/

/-- C10: for every temporal network point and every empty geometry argument,
the nearest-approach-distance, nearest-approach-instant and shortest-line
entry points against that geometry return an absent result, decided before any
geometry-kernel call (the identity holds for every possible kernel). -/
theorem C10_empty_geometry_absent (K : ProxKernel) (gs : GSerialized)
    (temp : Temporal npoint) (h : gs.isEmpty = true) :
    NAD_geometry_tnpoint K gs temp = none ∧
    NAD_tnpoint_geometry K temp gs = none ∧
    NAI_geometry_tnpoint K gs temp = none ∧
    NAI_tnpoint_geometry K temp gs = none ∧
    shortestline_geometry_tnpoint K gs temp = none ∧
    shortestline_tnpoint_geometry K temp gs = none := by
  refine ⟨?_, ?_, ?_, ?_, ?_, ?_⟩ <;>
    simp [NAD_geometry_tnpoint, NAD_tnpoint_geometry, NAI_geometry_tnpoint,
      NAI_tnpoint_geometry, shortestline_geometry_tnpoint,
      shortestline_tnpoint_geometry, h]

/-- C10 witness: a concrete empty geometry and a concrete instant give absent
results from all six entry points. -/
theorem C10_witness :
    NAD_geometry_tnpoint ⟨fun _ _ => 0, fun _ _ => ⟨⟨1, 0⟩, 0⟩, fun g _ => g⟩
        ⟨true, 0, false⟩ (.inst ⟨⟨1, 0⟩, 0⟩) = none ∧
    NAD_tnpoint_geometry ⟨fun _ _ => 0, fun _ _ => ⟨⟨1, 0⟩, 0⟩, fun g _ => g⟩
        (.inst ⟨⟨1, 0⟩, 0⟩) ⟨true, 0, false⟩ = none ∧
    NAI_geometry_tnpoint ⟨fun _ _ => 0, fun _ _ => ⟨⟨1, 0⟩, 0⟩, fun g _ => g⟩
        ⟨true, 0, false⟩ (.inst ⟨⟨1, 0⟩, 0⟩) = none ∧
    NAI_tnpoint_geometry ⟨fun _ _ => 0, fun _ _ => ⟨⟨1, 0⟩, 0⟩, fun g _ => g⟩
        (.inst ⟨⟨1, 0⟩, 0⟩) ⟨true, 0, false⟩ = none ∧
    shortestline_geometry_tnpoint
        ⟨fun _ _ => 0, fun _ _ => ⟨⟨1, 0⟩, 0⟩, fun g _ => g⟩
        ⟨true, 0, false⟩ (.inst ⟨⟨1, 0⟩, 0⟩) = none ∧
    shortestline_tnpoint_geometry
        ⟨fun _ _ => 0, fun _ _ => ⟨⟨1, 0⟩, 0⟩, fun g _ => g⟩
        (.inst ⟨⟨1, 0⟩, 0⟩) ⟨true, 0, false⟩ = none :=
  C10_empty_geometry_absent _ _ _ rfl

/-! ## Claim C6 -/

/-- C6: for every temporal network point and every empty restriction geometry
in the same SRID, the AT restriction returns an absent result and the MINUS
restriction returns a copy equal to the unchanged input. -/
theorem C6_empty_geometry_restriction (K : RestrictKernel)
    (temp : Temporal npoint) (gs : GSerialized)
    (hs : K.tsrid temp = gs.srid) (h : gs.isEmpty = true) :
    tnpoint_at_geometry K temp gs = .ok none ∧
    tnpoint_minus_geometry K temp gs = .ok (some (temporal_copy temp)) ∧
    temporal_copy temp = temp := by
  refine ⟨?_, ?_, rfl⟩ <;>
    simp [tnpoint_at_geometry, tnpoint_minus_geometry, hs, h]

/-- C6 witness: a concrete instant restricted to a concrete empty geometry of
matching SRID is absent under AT and unchanged under MINUS. -/
theorem C6_witness :
    tnpoint_at_geometry ⟨fun _ => 7, fun _ _ _ => none⟩ (.inst ⟨⟨1, 0⟩, 0⟩)
        ⟨true, 7, false⟩ = .ok none ∧
    tnpoint_minus_geometry ⟨fun _ => 7, fun _ _ _ => none⟩ (.inst ⟨⟨1, 0⟩, 0⟩)
        ⟨true, 7, false⟩ =
      .ok (some (temporal_copy (.inst ⟨⟨1, 0⟩, 0⟩))) ∧
    temporal_copy (Temporal.inst (⟨⟨1, 0⟩, 0⟩ : TInstant npoint)) =
      .inst ⟨⟨1, 0⟩, 0⟩ :=
  C6_empty_geometry_restriction _ _ _ rfl rfl

/-! ## Claim C1 -/

/-- C1 counterexample: two linear sequences with disjoint time domains (A over
[0, 10], B over [20, 30]).  `NAD_tnpoint_tnpoint` returns an absent result for
them, refuting the claim that a disjoint-time pair never yields an absent
result and falls back to a pure-trajectory distance. -/
theorem C1_counterexample :
    timeOverlap
        (.seq ⟨[⟨⟨1, 0⟩, 0⟩, ⟨⟨1, 1/2⟩, 10⟩], true, true, true⟩)
        (.seq ⟨[⟨⟨1, 1/2⟩, 20⟩, ⟨⟨1, 1⟩, 30⟩], true, true, true⟩) = false ∧
    NAD_tnpoint_tnpoint ⟨fun _ _ => .inst ⟨0, 0⟩⟩
        (.seq ⟨[⟨⟨1, 0⟩, 0⟩, ⟨⟨1, 1/2⟩, 10⟩], true, true, true⟩)
        (.seq ⟨[⟨⟨1, 1/2⟩, 20⟩, ⟨⟨1, 1⟩, 30⟩], true, true, true⟩) = none := by
  constructor
  · rfl
  · rfl

/-- C1 (amended): when the time domains of the two temporal network points are
disjoint, `NAD_tnpoint_tnpoint` returns an absent result; when they overlap,
it returns the minimum value of the synchronized pointwise-distance temporal
value. -/
theorem C1_nad_tnpoint_tnpoint (K : DistKernel) (temp1 temp2 : Temporal npoint) :
    (timeOverlap temp1 temp2 = false → NAD_tnpoint_tnpoint K temp1 temp2 = none) ∧
    (timeOverlap temp1 temp2 = true →
      NAD_tnpoint_tnpoint K temp1 temp2 =
        some (temporal_min_value_internal (K.syncDist temp1 temp2))) := by
  constructor
  · intro h
    simp [NAD_tnpoint_tnpoint, distance_tnpoint_tnpoint_internal, h]
  · intro h
    simp [NAD_tnpoint_tnpoint, distance_tnpoint_tnpoint_internal, h]

/-- C1 witness: a disjoint pair yields an absent result and an overlapping
pair yields the minimum of the synchronized distance. -/
theorem C1_witness :
    NAD_tnpoint_tnpoint ⟨fun _ _ => .inst ⟨3, 0⟩⟩
        (.inst ⟨⟨1, 0⟩, 0⟩) (.inst ⟨⟨1, 1⟩, 5⟩) = none ∧
    NAD_tnpoint_tnpoint ⟨fun _ _ => .inst ⟨3, 0⟩⟩
        (.inst ⟨⟨1, 0⟩, 4⟩) (.inst ⟨⟨1, 1⟩, 4⟩) = some 3 :=
  ⟨(C1_nad_tnpoint_tnpoint ⟨fun _ _ => .inst ⟨3, 0⟩⟩
      (.inst ⟨⟨1, 0⟩, 0⟩) (.inst ⟨⟨1, 1⟩, 5⟩)).1 rfl,
   (C1_nad_tnpoint_tnpoint ⟨fun _ _ => .inst ⟨3, 0⟩⟩
      (.inst ⟨⟨1, 0⟩, 4⟩) (.inst ⟨⟨1, 1⟩, 4⟩)).2 rfl⟩

/-! ## Claim C2 -/

/-- C2 counterexample: the speed of a single Instant is a present zero-valued
instant, not an absent result, refuting the claim that Instant inputs yield an
absent result. -/
theorem C2_counterexample :
    tnpoint_speed (fun _ => 100) (.inst ⟨⟨1, 0⟩, 0⟩) =
      some (.inst ⟨0, 0⟩) ∧
    tnpoint_speed (fun _ => 100) (.inst ⟨⟨1, 0⟩, 0⟩) ≠ none := by
  exact ⟨rfl, by simp [tnpoint_speed, tnpointinst_set_zero]⟩

theorem tnpointseq_speed_eq_none_iff (rlen : Int → ℚ) (s : TSequence npoint) :
    tnpointseq_speed rlen s = none ↔ s.instants.length = 1 := by
  match h : s.instants with
  | [] => simp [tnpointseq_speed, h]
  | [i0] => simp [tnpointseq_speed, h]
  | i0 :: i1 :: rest =>
    simp only [tnpointseq_speed, h]
    by_cases hl : s.linear = false <;> simp [hl]

/-- C2 (amended): the speed operation returns a present single zero instant
for an Instant, a present all-zero instant set for an InstantSet, an absent
result for any Sequence of count 1, a present all-zero stepwise sequence for a
stepwise Sequence of count at least 2, and an absent result for a SequenceSet
exactly when every component sequence has count 1. -/
theorem C2_amended_speed (rlen : Int → ℚ) :
    (∀ i : TInstant npoint,
      tnpoint_speed rlen (.inst i) = some (.inst ⟨0, i.t⟩)) ∧
    (∀ ti : TInstantSet npoint,
      tnpoint_speed rlen (.instset ti) =
        some (.instset ⟨ti.instants.map (fun j => (⟨0, j.t⟩ : TInstant ℚ))⟩)) ∧
    (∀ s : TSequence npoint, s.instants.length = 1 →
      tnpoint_speed rlen (.seq s) = none) ∧
    (∀ s : TSequence npoint, s.linear = false → 2 ≤ s.instants.length →
      tnpoint_speed rlen (.seq s) =
        some (.seq ⟨s.instants.map (fun j => (⟨0, j.t⟩ : TInstant ℚ)),
          s.lower_inc, s.upper_inc, false⟩)) ∧
    (∀ ts : TSequenceSet npoint,
      (tnpoint_speed rlen (.seqset ts) = none ↔
        ∀ s ∈ ts.seqs, s.instants.length = 1)) := by
  refine ⟨fun i => rfl, fun ti => rfl, ?_, ?_, ?_⟩
  · intro s hs
    simp [tnpoint_speed, (tnpointseq_speed_eq_none_iff rlen s).mpr hs]
  · intro s hl hn
    match h : s.instants with
    | [] => rw [h] at hn; simp at hn
    | [i0] => rw [h] at hn; simp at hn
    | i0 :: i1 :: rest =>
      simp [tnpoint_speed, tnpointseq_speed, h, hl]
  · intro ts
    simp only [tnpoint_speed, Option.map_eq_none', tnpoints_speed]
    constructor
    · intro h s hs
      by_cases hk : (ts.seqs.filterMap (tnpointseq_speed rlen)).length == 0
      · have : ts.seqs.filterMap (tnpointseq_speed rlen) = [] := by
          simpa using hk
        rw [List.filterMap_eq_nil_iff] at this
        exact (tnpointseq_speed_eq_none_iff rlen s).mp (this s hs)
      · simp [hk] at h
    · intro h
      have : ts.seqs.filterMap (tnpointseq_speed rlen) = [] := by
        rw [List.filterMap_eq_nil_iff]
        exact fun s hs => (tnpointseq_speed_eq_none_iff rlen s).mpr (h s hs)
      simp [this]

/-- C2 witness: a concrete instantaneous sequence yields an absent speed and a
concrete stepwise two-instant sequence yields a present all-zero sequence. -/
theorem C2_witness :
    tnpoint_speed (fun _ => 100)
        (.seq ⟨[⟨⟨1, 0⟩, 0⟩], true, true, true⟩) = none ∧
    tnpoint_speed (fun _ => 100)
        (.seq ⟨[⟨⟨1, 0⟩, 0⟩, ⟨⟨1, 1⟩, 10⟩], true, true, false⟩) =
      some (.seq ⟨[⟨0, 0⟩, ⟨0, 10⟩], true, true, false⟩) :=
  ⟨(C2_amended_speed (fun _ => 100)).2.2.1 _ rfl,
   (C2_amended_speed (fun _ => 100)).2.2.2.1 _ rfl (by norm_num)⟩

/-! ## Claim C5 -/

/-- Rate of one consecutive instant pair as the claim states it: route length
times the absolute fraction delta, divided by the elapsed seconds. -/
def rateOf (rlength : ℚ) (a b : TInstant npoint) : ℚ :=
  (|b.value.pos - a.value.pos| * rlength) / (((b.t - a.t : Int) : ℚ) / 1000000)

/-- Speed instants as the claim states them: one instant per consecutive pair
carrying the pair's rate at the pair's first timestamp, then a final instant
repeating the last computed rate at the final timestamp. -/
def specSpeedInsts (rlength : ℚ) (insts : List (TInstant npoint)) :
    List (TInstant ℚ) :=
  ((insts.zip insts.tail).map
      (fun p => (⟨rateOf rlength p.1 p.2, p.1.t⟩ : TInstant ℚ))) ++
    [⟨((insts.zip insts.tail).map (fun p => rateOf rlength p.1 p.2)).getLastD 0,
      (insts.getLastD default).t⟩]

theorem specSpeedInsts_cons (rl : ℚ) (i0 i1 i2 : TInstant npoint)
    (r : List (TInstant npoint)) :
    specSpeedInsts rl (i0 :: i1 :: i2 :: r) =
      ⟨rateOf rl i0 i1, i0.t⟩ :: specSpeedInsts rl (i1 :: i2 :: r) := by
  simp [specSpeedInsts, List.getLastD_cons]

theorem speedInstants_eq_spec (rl : ℚ) :
    ∀ (rest : List (TInstant npoint)) (i0 i1 : TInstant npoint) (sp : ℚ),
      speedInstants rl sp i0 (i1 :: rest) =
        specSpeedInsts rl (i0 :: i1 :: rest) := by
  intro rest
  induction rest with
  | nil =>
    intro i0 i1 sp
    simp [speedInstants, specSpeedInsts, rateOf]
  | cons i2 rest2 ih =>
    intro i0 i1 sp
    rw [speedInstants, ih i1 i2, specSpeedInsts_cons]
    simp [rateOf, mul_comm]

theorem specSpeedInsts_times (rl : ℚ) :
    ∀ (rest : List (TInstant npoint)) (i0 i1 : TInstant npoint),
      (specSpeedInsts rl (i0 :: i1 :: rest)).map (·.t) =
        (i0 :: i1 :: rest).map (·.t) ∧
      (specSpeedInsts rl (i0 :: i1 :: rest)).length =
        (i0 :: i1 :: rest).length := by
  intro rest
  induction rest with
  | nil => intro i0 i1; constructor <;> simp [specSpeedInsts]
  | cons i2 rest2 ih =>
    intro i0 i1
    rw [specSpeedInsts_cons]
    constructor
    · simp [List.map_cons, (ih i1 i2).1]
    · simp [(ih i1 i2).2]

/-- C5: for every linear Sequence of count at least 2, the speed is a present
stepwise sequence with exactly as many instants as the input, at the input's
timestamps, whose value at each non-final instant is route length times the
absolute fraction delta over the elapsed seconds of the following interval,
and whose final instant repeats the last computed rate. -/
theorem C5_speed_linear (rlen : Int → ℚ) (s : TSequence npoint)
    (i0 i1 : TInstant npoint) (rest : List (TInstant npoint))
    (h : s.instants = i0 :: i1 :: rest) (hl : s.linear = true) :
    tnpointseq_speed rlen s =
      some ⟨specSpeedInsts (rlen i0.value.rid) s.instants,
        s.lower_inc, s.upper_inc, false⟩ ∧
    (specSpeedInsts (rlen i0.value.rid) s.instants).length =
      s.instants.length ∧
    (specSpeedInsts (rlen i0.value.rid) s.instants).map (·.t) =
      s.instants.map (·.t) := by
  refine ⟨?_, by rw [h]; exact (specSpeedInsts_times _ rest i0 i1).2,
    by rw [h]; exact (specSpeedInsts_times _ rest i0 i1).1⟩
  simp only [tnpointseq_speed, h, hl]
  rw [speedInstants_eq_spec]
  simp

/-- C5 witness: route length 100, fractions 0 to 1/2 over ten seconds give the
constant rate 5 at both timestamps. -/
theorem C5_witness :
    tnpointseq_speed (fun _ => 100)
        ⟨[⟨⟨1, 0⟩, 0⟩, ⟨⟨1, 1/2⟩, 10000000⟩], true, true, true⟩ =
      some ⟨specSpeedInsts 100 [⟨⟨1, 0⟩, 0⟩, ⟨⟨1, 1/2⟩, 10000000⟩],
        true, true, false⟩ ∧
    specSpeedInsts 100 [⟨⟨1, 0⟩, 0⟩, ⟨⟨1, 1/2⟩, 10000000⟩] =
      [⟨5, 0⟩, ⟨5, 10000000⟩] :=
  ⟨(C5_speed_linear (fun _ => 100) _ _ _ _ rfl rfl).1,
   by norm_num [specSpeedInsts, rateOf, abs_of_nonneg]⟩

/-! ## Claim C3 -/

/-- C3: evaluation of `tnpoints_cumulative_length` on a sequence set of three
linear sequences on route 1 (route length 100), each traversing the full
route.  The third component's first output value is 300 while the second
component's last output value is 200: the seed fed to the third component is
not the previous component's final accumulated value, because the source adds
the (seed-inclusive) final value to the running seed instead of assigning it. -/
theorem C3_cumulative_length_divergence :
    ((tnpoints_cumulative_length (fun _ => 100)
        ⟨[⟨[⟨⟨1, 0⟩, 0⟩, ⟨⟨1, 1⟩, 10⟩], true, true, true⟩,
          ⟨[⟨⟨1, 0⟩, 20⟩, ⟨⟨1, 1⟩, 30⟩], true, true, true⟩,
          ⟨[⟨⟨1, 0⟩, 40⟩, ⟨⟨1, 1⟩, 50⟩], true, true, true⟩], true⟩).seqs.map
      (fun s => s.instants.map (·.value))) =
      [[0, 100], [100, 200], [300, 400]] ∧
    (300 : ℚ) ≠ 200 := by
  constructor
  · norm_num [tnpoints_cumulative_length, tnpointseq_cumulative_length,
      cumLengthInstants, abs_of_nonneg]
  · norm_num

/-! ## Claim C4 -/

/-- C4: evaluation of `tnpoints_geom` on a stepwise sequence set of two
sequences.  The resulting multipoint holds only the first instant of the first
sequence and the last instant of the second, so the point at fraction 3/4 —
the first instant of the second component — is an instant value of the input
but absent from the trajectory, refuting the union / containment claim. -/
theorem C4_trajectory_divergence :
    tnpoints_geom
        ⟨[⟨[⟨⟨1, 0⟩, 0⟩, ⟨⟨1, 1/2⟩, 10⟩], true, true, false⟩,
          ⟨[⟨⟨1, 3/4⟩, 20⟩, ⟨⟨1, 1⟩, 30⟩], true, true, false⟩], false⟩ =
      Geom.multiNpoint [⟨1, 0⟩, ⟨1, 1⟩] ∧
    (⟨1, 3/4⟩ : npoint) ∈
      (Temporal.seqset
        ⟨[⟨[⟨⟨1, 0⟩, 0⟩, ⟨⟨1, 1/2⟩, 10⟩], true, true, false⟩,
          ⟨[⟨⟨1, 3/4⟩, 20⟩, ⟨⟨1, 1⟩, 30⟩], true, true, false⟩],
          false⟩ : Temporal npoint).allValues ∧
    (⟨1, 3/4⟩ : npoint) ∉ ([⟨1, 0⟩, ⟨1, 1⟩] : List npoint) := by
  refine ⟨?_, ?_, ?_⟩
  · norm_num [tnpoints_geom, tnpoints_step_npoints, npointarr_mem,
      npoint_eq_internal, EPSILON, npointarr_to_geom_internal]
  · simp [Temporal.allValues]
  · norm_num [npoint.mk.injEq]

/-! ## Claim C7 -/

/-- Per-segment data of a sequence: for each consecutive instant pair, the
instants produced by `tnpointseq_azimuth1` and the segment's start time. -/
def azSegData (K : GeomKernel) : TInstant npoint → List (TInstant npoint) →
    List (List (TInstant ℚ) × Int)
  | _, [] => []
  | i1, i2 :: rest => (tnpointseq_azimuth1 K i1 i2, i1.t) :: azSegData K i2 rest

/-- Splitting as the claim states it: a segment that contributed no instants
closes the instants accumulated since the last split into one output group,
appending a closing instant that repeats the last value at the segment's
start time, and a new accumulation begins; the trailing accumulation closes at
the final timestamp; empty accumulations produce no group. -/
def azSplitSpec (finalT : Int) : List (List (TInstant ℚ) × Int) →
    List (TInstant ℚ) → List (List (TInstant ℚ))
  | [], acc => if acc.isEmpty then [] else [azClose acc finalT]
  | seg :: rest, acc =>
    if seg.1.isEmpty then
      if acc.isEmpty then azSplitSpec finalT rest []
      else azClose acc seg.2 :: azSplitSpec finalT rest []
    else azSplitSpec finalT rest (acc ++ seg.1)

/-- Azimuth output groups of a whole sequence as the claim states them. -/
def azimuthSplitSpec (K : GeomKernel) (s : TSequence npoint) :
    List (List (TInstant ℚ)) :=
  match s.instants with
  | [] => []
  | i0 :: rest =>
    azSplitSpec ((i0 :: rest).getLastD default).t (azSegData K i0 rest) []

/-- Whether every consecutive instant pair starting from the given position
has identical positions. -/
def allConstantFrom : npoint → List (TInstant npoint) → Bool
  | _, [] => true
  | np1, i :: rest => np1.pos == i.value.pos && allConstantFrom i.value rest

/-- Whether every segment of the sequence is constant. -/
def allConstantSeq (s : TSequence npoint) : Bool :=
  match s.instants with
  | [] => true
  | i0 :: rest => allConstantFrom i0.value rest

theorem getLastD_irrel (x : α) (l : List α) (d1 d2 : α) :
    (x :: l).getLastD d1 = (x :: l).getLastD d2 := by
  rw [List.getLastD_cons, List.getLastD_cons]

theorem azLoop_eq_spec (K : GeomKernel) :
    ∀ (rest : List (TInstant npoint)) (i1 : TInstant npoint) (lower : Bool)
      (pend : List (TInstant ℚ)) (out : List (TSequence ℚ)),
      (azLoop K i1 rest lower pend out).map TSequence.instants =
        out.map TSequence.instants ++
          azSplitSpec ((i1 :: rest).getLastD default).t (azSegData K i1 rest)
            pend := by
  intro rest
  induction rest with
  | nil =>
    intro i1 lower pend out
    by_cases hp : pend.isEmpty <;>
      simp [azLoop, azSegData, azSplitSpec, hp]
  | cons i2 rest2 ih =>
    intro i1 lower pend out
    rw [show ((i1 :: i2 :: rest2).getLastD default).t =
        ((i2 :: rest2).getLastD default).t by
      rw [List.getLastD_cons, getLastD_irrel]]
    simp only [azLoop, azSegData, azSplitSpec]
    by_cases hi : (tnpointseq_azimuth1 K i1 i2).isEmpty
    · by_cases hp : pend.isEmpty
      · have hpe : pend = [] := by simpa using hp
        rw [if_pos hi, if_pos hp, ih]
        simp [azSplitSpec, hi, hp, hpe]
      · rw [if_pos hi, if_neg hp, ih]
        simp [azSplitSpec, hi, hp]
    · rw [if_neg hi, ih]
      simp [azSplitSpec, hi]

theorem tnpointseq_azimuth2_eq_spec (K : GeomKernel) (s : TSequence npoint) :
    (tnpointseq_azimuth2 K s).map TSequence.instants = azimuthSplitSpec K s := by
  match h : s.instants with
  | [] => simp [tnpointseq_azimuth2, azimuthSplitSpec, h]
  | [i0] =>
    simp [tnpointseq_azimuth2, azimuthSplitSpec, h, azSegData, azSplitSpec]
  | i0 :: i1 :: rest =>
    simp only [tnpointseq_azimuth2, azimuthSplitSpec, h]
    rw [azLoop_eq_spec]
    simp

theorem azimuth1_const (K : GeomKernel) (i1 i2 : TInstant npoint)
    (h : i1.value.pos = i2.value.pos) : tnpointseq_azimuth1 K i1 i2 = [] := by
  simp [tnpointseq_azimuth1, h]

theorem azSplitSpec_all_empty (fT : Int) :
    ∀ l : List (List (TInstant ℚ) × Int), (∀ p ∈ l, p.1 = []) →
      azSplitSpec fT l [] = [] := by
  intro l
  induction l with
  | nil => intro _; simp [azSplitSpec]
  | cons p rest ih =>
    intro h
    have hp : p.1 = [] := h p (by simp)
    simp [azSplitSpec, hp, ih fun q hq => h q (by simp [hq])]

theorem azSegData_const (K : GeomKernel) :
    ∀ (rest : List (TInstant npoint)) (i0 : TInstant npoint),
      allConstantFrom i0.value rest = true →
      ∀ p ∈ azSegData K i0 rest, p.1 = [] := by
  intro rest
  induction rest with
  | nil => intro i0 _ p hp; simp [azSegData] at hp
  | cons i1 rest2 ih =>
    intro i0 h p hp
    rw [allConstantFrom, Bool.and_eq_true] at h
    rw [azSegData] at hp
    rcases List.mem_cons.mp hp with hp | hp
    · rw [hp]
      exact azimuth1_const K i0 i1 (by simpa using h.1)
    · exact ih i1 h.2 p hp

theorem azimuth_all_constant_none (K : GeomKernel) (s : TSequence npoint)
    (h : allConstantSeq s = true) : tnpoint_azimuth K (.seq s) = none := by
  have h2 : tnpointseq_azimuth2 K s = [] := by
    have hm := tnpointseq_azimuth2_eq_spec K s
    have hs : azimuthSplitSpec K s = [] := by
      rw [azimuthSplitSpec]
      match hi : s.instants with
      | [] => rfl
      | i0 :: rest =>
        rw [allConstantSeq, hi] at h
        exact azSplitSpec_all_empty _ _ (azSegData_const K rest i0 h)
    rw [hs] at hm
    exact List.map_eq_nil_iff.mp hm
  rw [tnpoint_azimuth]
  by_cases hl : s.linear <;> simp [hl, tnpointseq_azimuth, h2]

/-- C7: for every linear sequence, a constant segment contributes zero azimuth
instants; the emitted sequences are exactly the groups obtained by closing the
accumulated instants at each constant segment (with a closing instant
repeating the last azimuth value at the constant segment's start time) and
starting a new accumulation after it; and an input all of whose segments are
constant yields an absent result. -/
theorem C7_azimuth_constant_split (K : GeomKernel) (s : TSequence npoint) :
    (∀ i1 i2 : TInstant npoint, i1.value.pos = i2.value.pos →
      tnpointseq_azimuth1 K i1 i2 = []) ∧
    (tnpointseq_azimuth2 K s).map TSequence.instants = azimuthSplitSpec K s ∧
    (allConstantSeq s = true → tnpoint_azimuth K (.seq s) = none) :=
  ⟨fun i1 i2 h => azimuth1_const K i1 i2 h,
    tnpointseq_azimuth2_eq_spec K s,
    fun h => azimuth_all_constant_none K s h⟩

/-- C7 witness: a concrete two-instant constant linear sequence yields an
absent azimuth result. -/
theorem C7_witness :
    tnpoint_azimuth ⟨fun _ _ => [(1, 1)]⟩
      (.seq ⟨[⟨⟨1, 0⟩, 0⟩, ⟨⟨1, 0⟩, 10⟩], true, true, true⟩) = none :=
  (C7_azimuth_constant_split ⟨fun _ _ => [(1, 1)]⟩
    ⟨[⟨⟨1, 0⟩, 0⟩, ⟨⟨1, 0⟩, 10⟩], true, true, true⟩).2.2
    (by norm_num [allConstantSeq, allConstantFrom])
